import Mathlib

/-!
Shallow embedding of the mention-resolution subsystem of `message.go`
(the `Message` data model, `Reference`, `ContentWithMentionsReplaced` and
`ContentWithMoreMentionsReplaced`), together with proofs settling the
frozen claims about it.

Strings are embedded as `List Char`.  Go's `strings.NewReplacer(p1, r1,
p2, r2).Replace`, `strings.Replace(s, old, new, -1)` and
`patternChannels.ReplaceAllStringFunc` (pattern `<#[^>]*>`) are embedded
as left-to-right, non-overlapping scanners; each uses a fuel argument
equal to the input length so that the recursion is structural and the
definitions evaluate inside `decide`.

The collaborator types (`User`, `Member`, `Role`, `Channel`, `Session`,
its `State` cache and the `ChannelType` constants) are declared outside
this fragment (`user.go`, `state.go`, ...); they are modelled from the
spec where noted.
-/

/-- Splits a character list at its first `'>'`: returns
`some (before, after)` with `l = before ++ '>' :: after` and no `'>'`
in `before`, or `none` when `l` has no `'>'`.  This is the core of the
regex `<#[^>]*>`: after a `<#`, the match extends to the next `'>'`. -/
def findGt : List Char → Option (List Char × List Char)
  | [] => none
  | c :: cs =>
    if c = '>' then some ([], cs)
    else
      match findGt cs with
      | some (b, a) => some (c :: b, a)
      | none => none

/-- Fuel-indexed embedding of Go `strings.NewReplacer(p1, r1, p2, r2).Replace`:
scan left to right; at each position try `p1` then `p2` (argument order,
as documented for `strings.Replacer`); on a match emit the replacement
and continue after the matched text (non-overlapping), otherwise emit
one character.  `fuel ≥ s.length` makes the recursion total; every
pattern at the call sites is nonempty, and an empty pattern never
matches here. -/
def replacer2Aux (p1 r1 p2 r2 : List Char) : Nat → List Char → List Char
  | _, [] => []
  | 0, s => s
  | fuel + 1, c :: rest =>
    if 0 < p1.length ∧ p1.isPrefixOf (c :: rest) then
      r1 ++ replacer2Aux p1 r1 p2 r2 fuel ((c :: rest).drop p1.length)
    else if 0 < p2.length ∧ p2.isPrefixOf (c :: rest) then
      r2 ++ replacer2Aux p1 r1 p2 r2 fuel ((c :: rest).drop p2.length)
    else
      c :: replacer2Aux p1 r1 p2 r2 fuel rest

/-- Embedding of Go `strings.NewReplacer(p1, r1, p2, r2).Replace s`. -/
def replacer2 (p1 r1 p2 r2 s : List Char) : List Char :=
  replacer2Aux p1 r1 p2 r2 s.length s

/-- Fuel-indexed embedding of Go `strings.Replace(s, old, new, -1)`:
replace every non-overlapping occurrence of `old`, scanning left to
right.  (`old` is nonempty at every call site of this fragment.) -/
def stringsReplaceAux (old new : List Char) : Nat → List Char → List Char
  | _, [] => []
  | 0, s => s
  | fuel + 1, c :: rest =>
    if 0 < old.length ∧ old.isPrefixOf (c :: rest) then
      new ++ stringsReplaceAux old new fuel ((c :: rest).drop old.length)
    else
      c :: stringsReplaceAux old new fuel rest

/-- Embedding of Go `strings.Replace(s, old, new, -1)`. -/
def stringsReplace (s old new : List Char) : List Char :=
  stringsReplaceAux old new s.length s

/-- Fuel-indexed embedding of
`patternChannels.ReplaceAllStringFunc(s, f)` for
`patternChannels = regexp.MustCompile("<#[^>]*>")`: scanning left to
right, a match starts at each `<#` and extends to the first following
`'>'` (leftmost match; `[^>]*` cannot cross a `'>'`); the whole match,
brackets included, is handed to `f`; text without a match is emitted
verbatim.  When a `<#` has no following `'>'` the remainder contains no
match at all and is emitted verbatim. -/
def rctAux (f : List Char → List Char) : Nat → List Char → List Char
  | _, [] => []
  | 0, s => s
  | _ + 1, [c] => [c]
  | fuel + 1, c1 :: c2 :: rest =>
    if c1 = '<' ∧ c2 = '#' then
      match findGt rest with
      | some (b, a) => f ('<' :: '#' :: (b ++ ['>'])) ++ rctAux f fuel a
      | none => c1 :: c2 :: rest
    else
      c1 :: rctAux f fuel (c2 :: rest)

/-- Embedding of `patternChannels.ReplaceAllStringFunc(s, f)`. -/
def replaceAllChannelTokens (f : List Char → List Char) (s : List Char) : List Char :=
  rctAux f s.length s

/-- Returns `true` iff the two-character sequence `<#` occurs in `l`. -/
def hasLtHash : List Char → Bool
  | [] => false
  | [_] => false
  | c1 :: c2 :: rest => (decide (c1 = '<') && decide (c2 = '#')) || hasLtHash (c2 :: rest)

/-- Returns `true` iff `l` contains a match of `patternChannels`, i.e. a `<#`
with a `'>'` somewhere after it. -/
def hasChannelToken : List Char → Bool
  | [] => false
  | [_] => false
  | c1 :: c2 :: rest =>
    (decide (c1 = '<') && decide (c2 = '#') && (findGt rest).isSome) || hasChannelToken (c2 :: rest)

/-! ## Data model -/

/-- Modelled from the spec: `Channel.Type` is an enumerated kind
(`type ChannelType int` lives outside this fragment); only the
guild-voice constant is consulted by this fragment. -/
abbrev ChannelType := Nat

/-- Modelled from the spec: the guild-voice channel kind
(`ChannelTypeGuildVoice`). -/
def ChannelTypeGuildVoice : ChannelType := 2

/-- Modelled from the spec: `User` has `ID` and `Username`
(identity key `ID`); `user.go` is outside this fragment. -/
structure User where
  ID : List Char
  Username : List Char
deriving DecidableEq, Repr

/-- Modelled from the spec: `Member` is a user's per-guild profile with
a `Nick` that may be empty, meaning no override. -/
structure Member where
  Nick : List Char
deriving DecidableEq, Repr

/-- Modelled from the spec: `Role` has `ID`, `Name` and the
`Mentionable` boolean gate. -/
structure Role where
  ID : List Char
  Name : List Char
  Mentionable : Bool
deriving DecidableEq, Repr

/-- Modelled from the spec: `Channel` has `ID`, `Name`, `GuildID` and an
enumerated `Type` (field named `ctype` here since `Type` is reserved in
Lean). -/
structure Channel where
  ID : List Char
  Name : List Char
  GuildID : List Char
  ctype : ChannelType
deriving DecidableEq, Repr

/-- Modelled from the spec: a guild scopes roles; the state's `Role`
lookup resolves a guild by ID and then a role by ID inside it. -/
structure Guild where
  ID : List Char
  Roles : List Role
deriving DecidableEq, Repr

/-- Modelled from the spec: the State collaborator is a read-only cache
exposing `Channel(channelID)`, `Member(guildID, userID)` and
`Role(guildID, roleID)` lookups, each of which may fail with a
not-found error.  Channels are cached by channel ID, members by
guild ID and user ID, roles inside their guild by role ID. -/
structure State where
  channels : List Channel
  members : List (List Char × List Char × Member)
  guilds : List Guild
deriving DecidableEq, Repr

/-- Modelled from the spec: `State.Channel(channelID)` — the cached
channel with the given ID, or a not-found failure (`none`). -/
def State.channel (st : State) (channelID : List Char) : Option Channel :=
  st.channels.find? (fun c => decide (c.ID = channelID))

/-- Modelled from the spec: `State.Member(guildID, userID)` — the cached
per-guild member profile, or a not-found failure (`none`). -/
def State.member (st : State) (guildID userID : List Char) : Option Member :=
  (st.members.find? (fun e => decide (e.1 = guildID ∧ e.2.1 = userID))).map (fun e => e.2.2)

/-- Modelled from the spec: `State.Role(guildID, roleID)` — resolve the
guild by ID, then the role by ID among the guild's roles, or a
not-found failure (`none`). -/
def State.role (st : State) (guildID roleID : List Char) : Option Role :=
  match st.guilds.find? (fun g => decide (g.ID = guildID)) with
  | none => none
  | some g => g.Roles.find? (fun r => decide (r.ID = roleID))

/-- Modelled from the spec: the not-found error surfaced by the state
cache (`ErrStateNotFound`); `error` return values are embedded as
`Option StateError`, `none` standing for Go's nil error. -/
inductive StateError where
  | notFound
deriving DecidableEq, Repr

/-- Modelled from the spec: the slice of `Session` consumed by this
fragment — the `StateEnabled` flag and the `State` cache. -/
structure Session where
  StateEnabled : Bool
  State : State

/-- Restriction of `Message` to the fields this fragment's operations read
(`ID`, `ChannelID`, `GuildID`, `Content`, `Mentions`, `MentionRoles`);
the remaining fields of the record are inert data never consulted by
`Reference` or the two resolvers. -/
structure Message where
  ID : List Char
  ChannelID : List Char
  GuildID : List Char
  Content : List Char
  Mentions : List User
  MentionRoles : List (List Char)
deriving DecidableEq, Repr

/-- Record `MessageReference` from `message.go`: message, channel and guild ID. -/
structure MessageReference where
  MessageID : List Char
  ChannelID : List Char
  GuildID : List Char
deriving DecidableEq, Repr

/-- Method `Message.Reference` from `message.go`. -/
def Message.Reference (m : Message) : MessageReference :=
  { GuildID := m.GuildID
    ChannelID := m.ChannelID
    MessageID := m.ID }

/-- The token `<@` ++ id ++ `>`. -/
def utok (id : List Char) : List Char :=
  '<' :: '@' :: (id ++ ['>'])

/-- The token `<@!` ++ id ++ `>`. -/
def utokBang (id : List Char) : List Char :=
  '<' :: '@' :: '!' :: (id ++ ['>'])

/-- The token `<@&` ++ id ++ `>`. -/
def rtok (id : List Char) : List Char :=
  '<' :: '@' :: '&' :: (id ++ ['>'])

/-- The token `<#` ++ id ++ `>`. -/
def chanTok (id : List Char) : List Char :=
  '<' :: '#' :: (id ++ ['>'])

/-- One iteration of the loop of `ContentWithMentionsReplaced`:
`strings.NewReplacer("<@"+ID+">", "@"+Username, "<@!"+ID+">", "@"+Username).Replace`. -/
def userBasicStep (content : List Char) (user : User) : List Char :=
  replacer2 (utok user.ID) ('@' :: user.Username)
    (utokBang user.ID) ('@' :: user.Username) content

/-- Method `Message.ContentWithMentionsReplaced` from `message.go`: fold the
replacer over `Mentions` starting from `Content`. -/
def Message.ContentWithMentionsReplaced (m : Message) : List Char :=
  m.Mentions.foldl userBasicStep m.Content

/-- One iteration of the user loop of `ContentWithMoreMentionsReplaced`:
`nick` starts as the username and becomes the member's nick when the
member lookup succeeds with a nonempty nick; then
`strings.NewReplacer("<@"+ID+">", "@"+Username, "<@!"+ID+">", "@"+nick).Replace`. -/
def userStep (st : State) (guildID : List Char) (content : List Char) (user : User) : List Char :=
  let nick :=
    match st.member guildID user.ID with
    | some mem => if mem.Nick ≠ [] then mem.Nick else user.Username
    | none => user.Username
  replacer2 (utok user.ID) ('@' :: user.Username)
    (utokBang user.ID) ('@' :: nick) content

/-- The user loop of `ContentWithMoreMentionsReplaced`. -/
def userPass (st : State) (guildID : List Char) (mentions : List User) (content : List Char) :
    List Char :=
  mentions.foldl (userStep st guildID) content

/-- One iteration of the role loop of `ContentWithMoreMentionsReplaced`:
`continue` when the role lookup fails or the role is not mentionable,
otherwise `strings.Replace(content, "<@&"+role.ID+">", "@"+role.Name, -1)`
(note: the looked-up `role.ID`, as in the source). -/
def roleStep (st : State) (guildID : List Char) (content : List Char) (roleID : List Char) :
    List Char :=
  match st.role guildID roleID with
  | none => content
  | some role =>
    if role.Mentionable then stringsReplace content (rtok role.ID) ('@' :: role.Name)
    else content

/-- The role loop of `ContentWithMoreMentionsReplaced`. -/
def rolePass (st : State) (guildID : List Char) (roleIDs : List (List Char))
    (content : List Char) : List Char :=
  roleIDs.foldl (roleStep st guildID) content

/-- The function literal of the channel pass: look the ID
`mention[2 : len(mention)-1]` up; on failure or a guild-voice channel
return the match unchanged, otherwise `"#" + channel.Name`. -/
def chanResolve (st : State) (mention : List Char) : List Char :=
  match st.channel ((mention.drop 2).dropLast) with
  | none => mention
  | some channel =>
    if channel.ctype = ChannelTypeGuildVoice then mention
    else '#' :: channel.Name

/-- The channel pass of `ContentWithMoreMentionsReplaced`:
`patternChannels.ReplaceAllStringFunc(content, ...)`. -/
def channelPass (st : State) (content : List Char) : List Char :=
  replaceAllChannelTokens (chanResolve st) content

/-- Method `Message.ContentWithMoreMentionsReplaced` from `message.go`.  The
pair's second component embeds the named return `err`: the statement
`channel, err := s.State.Channel(m.ChannelID)` assigns the function's
named result (`channel` is the only new variable there), so the failed
lookup's error is returned alongside the basic replacement; the `err`s
of the member, role and channel-literal lookups are fresh variables in
inner scopes and never reach the return value. -/
def Message.ContentWithMoreMentionsReplaced (m : Message) (s : Session) :
    List Char × Option StateError :=
  if !s.StateEnabled then
    (m.ContentWithMentionsReplaced, none)
  else
    match s.State.channel m.ChannelID with
    | none => (m.ContentWithMentionsReplaced, some StateError.notFound)
    | some channel =>
      (channelPass s.State
        (rolePass s.State channel.GuildID m.MentionRoles
          (userPass s.State channel.GuildID m.Mentions m.Content)), none)

/-! ## Helper lemmas about the string machinery -/

theorem findGt_append (a : List Char) :
    ∀ (b : List Char), '>' ∉ b → findGt (b ++ '>' :: a) = some (b, a) := by
  intro b
  induction b with
  | nil => intro _; simp [findGt]
  | cons c b' ih =>
    intro h
    have hc : c ≠ '>' := fun hc => h (by simp [hc])
    have hb : '>' ∉ b' := fun hm => h (List.mem_cons_of_mem _ hm)
    simp only [List.cons_append, findGt, if_neg hc, List.append_eq, ih hb]

theorem findGt_eq :
    ∀ (l b a : List Char), findGt l = some (b, a) → l = b ++ '>' :: a ∧ '>' ∉ b := by
  intro l
  induction l with
  | nil => intro b a h; simp [findGt] at h
  | cons c cs ih =>
    intro b a h
    by_cases hc : c = '>'
    · simp only [findGt, if_pos hc] at h
      obtain ⟨hb, ha⟩ := Prod.mk.injEq .. ▸ Option.some.injEq .. ▸ h
      subst hc
      constructor
      · rw [← hb, ← ha]; rfl
      · rw [← hb]; simp
    · simp only [findGt, if_neg hc] at h
      cases hfg : findGt cs with
      | none => rw [hfg] at h; simp at h
      | some pa =>
        obtain ⟨b', a'⟩ := pa
        rw [hfg] at h
        simp only [Option.some.injEq, Prod.mk.injEq] at h
        obtain ⟨hb, ha⟩ := h
        obtain ⟨heq, hmem⟩ := ih b' a' hfg
        subst hb ha
        constructor
        · simp [heq]
        · intro hm
          rcases List.mem_cons.mp hm with h1 | h1
          · exact hc h1.symm
          · exact hmem h1

theorem rctAux_cons2 (f : List Char → List Char) (n : Nat) (c1 c2 : Char) (rest : List Char) :
    rctAux f (n + 1) (c1 :: c2 :: rest) =
      if c1 = '<' ∧ c2 = '#' then
        match findGt rest with
        | some (b, a) => f ('<' :: '#' :: (b ++ ['>'])) ++ rctAux f n a
        | none => c1 :: c2 :: rest
      else c1 :: rctAux f n (c2 :: rest) := rfl

theorem findGt_length (l b a : List Char) (h : findGt l = some (b, a)) :
    a.length < l.length := by
  obtain ⟨heq, -⟩ := findGt_eq l b a h
  subst heq
  simp
  omega

theorem rctAux_fuel (f : List Char → List Char) :
    ∀ (fuel fuel' : Nat) (s : List Char), s.length ≤ fuel → s.length ≤ fuel' →
      rctAux f fuel s = rctAux f fuel' s := by
  intro fuel
  induction fuel with
  | zero =>
    intro fuel' s hs _
    have : s = [] := List.length_eq_zero.mp (Nat.le_zero.mp hs)
    subst this
    cases fuel' <;> rfl
  | succ n ih =>
    intro fuel' s hs hs'
    match s with
    | [] => cases fuel' <;> rfl
    | [c] =>
      match fuel' with
      | 0 => simp at hs'
      | k + 1 => rfl
    | c1 :: c2 :: rest =>
      match fuel' with
      | 0 => simp at hs'
      | k + 1 =>
        rw [rctAux_cons2, rctAux_cons2]
        by_cases hc : c1 = '<' ∧ c2 = '#'
        · rw [if_pos hc, if_pos hc]
          cases hfg : findGt rest with
          | none => rfl
          | some pa =>
            obtain ⟨b, a⟩ := pa
            have hlen := findGt_length rest b a hfg
            simp only [List.length_cons] at hs hs'
            show f ('<' :: '#' :: (b ++ ['>'])) ++ rctAux f n a
              = f ('<' :: '#' :: (b ++ ['>'])) ++ rctAux f k a
            rw [ih k a (by omega) (by omega)]
        · rw [if_neg hc, if_neg hc]
          simp only [List.length_cons] at hs hs'
          rw [ih k (c2 :: rest) (by simp; omega) (by simp; omega)]

theorem rctAux_noToken (f : List Char → List Char) :
    ∀ (fuel : Nat) (s : List Char), s.length ≤ fuel → hasChannelToken s = false →
      rctAux f fuel s = s := by
  intro fuel
  induction fuel with
  | zero =>
    intro s hs _
    have : s = [] := List.length_eq_zero.mp (Nat.le_zero.mp hs)
    subst this
    rfl
  | succ n ih =>
    intro s hs htok
    match s with
    | [] => rfl
    | [c] => rfl
    | c1 :: c2 :: rest =>
      rw [rctAux_cons2]
      simp only [hasChannelToken, Bool.or_eq_false_iff, Bool.and_eq_false_iff] at htok
      obtain ⟨h1, h2⟩ := htok
      by_cases hc : c1 = '<' ∧ c2 = '#'
      · rw [if_pos hc]
        cases hfg : findGt rest with
        | none => rfl
        | some pa =>
          exfalso
          rcases h1 with h1 | h1
          · rcases h1 with h1 | h1
            · exact absurd (decide_eq_true hc.1) (by rw [h1]; decide)
            · exact absurd (decide_eq_true hc.2) (by rw [h1]; decide)
          · rw [hfg] at h1; simp at h1
      · rw [if_neg hc]
        simp only [List.length_cons] at hs
        rw [ih (c2 :: rest) (by simp; omega) h2]

theorem rctAux_congr (f g : List Char → List Char)
    (hfg : ∀ b : List Char, '>' ∉ b → f ('<' :: '#' :: (b ++ ['>'])) = g ('<' :: '#' :: (b ++ ['>']))) :
    ∀ (fuel : Nat) (s : List Char), s.length ≤ fuel → rctAux f fuel s = rctAux g fuel s := by
  intro fuel
  induction fuel with
  | zero =>
    intro s hs
    have : s = [] := List.length_eq_zero.mp (Nat.le_zero.mp hs)
    subst this
    rfl
  | succ n ih =>
    intro s hs
    match s with
    | [] => rfl
    | [c] => rfl
    | c1 :: c2 :: rest =>
      rw [rctAux_cons2, rctAux_cons2]
      by_cases hc : c1 = '<' ∧ c2 = '#'
      · rw [if_pos hc, if_pos hc]
        cases hfg2 : findGt rest with
        | none => rfl
        | some pa =>
          obtain ⟨b, a⟩ := pa
          obtain ⟨-, hb⟩ := findGt_eq rest b a hfg2
          have hlen := findGt_length rest b a hfg2
          simp only [List.length_cons] at hs
          show f ('<' :: '#' :: (b ++ ['>'])) ++ rctAux f n a
            = g ('<' :: '#' :: (b ++ ['>'])) ++ rctAux g n a
          rw [hfg b hb, ih a (by omega)]
      · rw [if_neg hc]
        rw [if_neg hc]
        simp only [List.length_cons] at hs
        rw [ih (c2 :: rest) (by simp; omega)]

theorem rctAux_append (f : List Char → List Char) (id suf : List Char) (hid : '>' ∉ id) :
    ∀ (pre : List Char) (fuel : Nat), hasLtHash pre = false →
      (pre ++ (chanTok id ++ suf)).length ≤ fuel →
      rctAux f fuel (pre ++ (chanTok id ++ suf)) =
        pre ++ (f (chanTok id) ++ rctAux f suf.length suf) := by
  intro pre
  induction pre with
  | nil =>
    intro fuel _ hlen
    cases fuel with
    | zero => exfalso; simp [chanTok] at hlen
    | succ n =>
      show rctAux f (n + 1) ('<' :: '#' :: ((id ++ ['>']) ++ suf))
        = [] ++ (f (chanTok id) ++ rctAux f suf.length suf)
      rw [show (id ++ ['>']) ++ suf = id ++ '>' :: suf by simp]
      rw [rctAux_cons2, if_pos ⟨rfl, rfl⟩, findGt_append suf id hid]
      show f ('<' :: '#' :: (id ++ ['>'])) ++ rctAux f n suf
        = [] ++ (f (chanTok id) ++ rctAux f suf.length suf)
      rw [rctAux_fuel f n suf.length suf (by simp [chanTok] at hlen; omega) (le_refl _)]
      rfl
  | cons c pre' ih =>
    intro fuel hpre hlen
    cases fuel with
    | zero => exfalso; simp [chanTok] at hlen
    | succ n =>
      cases pre' with
      | nil =>
        show rctAux f (n + 1) (c :: '<' :: ('#' :: ((id ++ ['>']) ++ suf)))
          = [c] ++ (f (chanTok id) ++ rctAux f suf.length suf)
        rw [rctAux_cons2, if_neg (fun hand => absurd hand.2 (by decide))]
        have h2 := ih n rfl (by simp [chanTok] at hlen ⊢; omega)
        rw [List.nil_append, List.nil_append] at h2
        show c :: rctAux f n (chanTok id ++ suf)
          = c :: (f (chanTok id) ++ rctAux f suf.length suf)
        rw [h2]
      | cons d pre'' =>
        show rctAux f (n + 1) (c :: d :: (pre'' ++ (chanTok id ++ suf)))
          = (c :: d :: pre'') ++ (f (chanTok id) ++ rctAux f suf.length suf)
        simp only [hasLtHash, Bool.or_eq_false_iff, Bool.and_eq_false_iff,
          decide_eq_false_iff_not] at hpre
        obtain ⟨h1, h2⟩ := hpre
        have hcd : ¬ (c = '<' ∧ d = '#') := by
          intro hand
          rcases h1 with h | h
          · exact h hand.1
          · exact h hand.2
        rw [rctAux_cons2, if_neg hcd]
        have h3 := ih n h2 (by simp [chanTok] at hlen ⊢; omega)
        show c :: rctAux f n ((d :: pre'') ++ (chanTok id ++ suf))
          = c :: ((d :: pre'') ++ (f (chanTok id) ++ rctAux f suf.length suf))
        rw [h3]

theorem replaceAllChannelTokens_append (f : List Char → List Char) (pre id suf : List Char)
    (hpre : hasLtHash pre = false) (hid : '>' ∉ id) :
    replaceAllChannelTokens f (pre ++ chanTok id ++ suf) =
      pre ++ f (chanTok id) ++ replaceAllChannelTokens f suf := by
  unfold replaceAllChannelTokens
  rw [List.append_assoc]
  rw [rctAux_append f id suf hid pre _ hpre (le_refl _)]
  simp

theorem replaceAllChannelTokens_noToken (f : List Char → List Char) (s : List Char)
    (h : hasChannelToken s = false) : replaceAllChannelTokens f s = s :=
  rctAux_noToken f s.length s (le_refl _) h

theorem replaceAllChannelTokens_congr (f g : List Char → List Char) (s : List Char)
    (hfg : ∀ b : List Char, '>' ∉ b →
      f ('<' :: '#' :: (b ++ ['>'])) = g ('<' :: '#' :: (b ++ ['>']))) :
    replaceAllChannelTokens f s = replaceAllChannelTokens g s :=
  rctAux_congr f g hfg s.length s (le_refl _)

theorem replacer2Aux_cons (p1 r1 p2 r2 : List Char) (n : Nat) (c : Char) (rest : List Char) :
    replacer2Aux p1 r1 p2 r2 (n + 1) (c :: rest) =
      if 0 < p1.length ∧ p1.isPrefixOf (c :: rest) then
        r1 ++ replacer2Aux p1 r1 p2 r2 n ((c :: rest).drop p1.length)
      else if 0 < p2.length ∧ p2.isPrefixOf (c :: rest) then
        r2 ++ replacer2Aux p1 r1 p2 r2 n ((c :: rest).drop p2.length)
      else
        c :: replacer2Aux p1 r1 p2 r2 n rest := rfl

theorem replacer2Aux_eq_self (p1 r1 p2 r2 : List Char) :
    ∀ (fuel : Nat) (s : List Char), s.length ≤ fuel →
      ¬ (p1 <:+: s) → ¬ (p2 <:+: s) → replacer2Aux p1 r1 p2 r2 fuel s = s := by
  intro fuel
  induction fuel with
  | zero =>
    intro s hs _ _
    have : s = [] := List.length_eq_zero.mp (Nat.le_zero.mp hs)
    subst this
    rfl
  | succ n ih =>
    intro s hs h1 h2
    match s with
    | [] => rfl
    | c :: rest =>
      rw [replacer2Aux_cons]
      rw [if_neg (fun hand => h1 ( List.IsPrefix.isInfix ( List.isPrefixOf_iff_prefix.mp hand.2)))]
      rw [if_neg (fun hand => h2 ( List.IsPrefix.isInfix ( List.isPrefixOf_iff_prefix.mp hand.2)))]
      simp only [List.length_cons] at hs
      rw [ih rest (by omega) (fun hi => h1 ( List.infix_cons hi))
        (fun hi => h2 ( List.infix_cons hi))]

theorem replacer2_eq_self (p1 r1 p2 r2 s : List Char)
    (h1 : ¬ (p1 <:+: s)) (h2 : ¬ (p2 <:+: s)) : replacer2 p1 r1 p2 r2 s = s :=
  replacer2Aux_eq_self p1 r1 p2 r2 s.length s (le_refl _) h1 h2

theorem foldl_congr_mem {α β : Type} (f g : α → β → α) :
    ∀ (l : List β) (init : α), (∀ (a : α) (b : β), b ∈ l → f a b = g a b) →
      l.foldl f init = l.foldl g init := by
  intro l
  induction l with
  | nil => intro init _; rfl
  | cons x xs ih =>
    intro init h
    simp only [List.foldl_cons]
    rw [h init x (by simp)]
    exact ih (g init x) (fun a b hb => h a b (List.mem_cons_of_mem _ hb))

theorem foldl_fixed {α β : Type} (f : α → β → α) (a : α) :
    ∀ (l : List β), (∀ b ∈ l, f a b = a) → l.foldl f a = a := by
  intro l
  induction l with
  | nil => intro _; rfl
  | cons x xs ih =>
    intro h
    simp only [List.foldl_cons, h x (by simp)]
    exact ih (fun b hb => h b (List.mem_cons_of_mem _ hb))

theorem state_role_id (st : State) (g rid : List Char) (r : Role)
    (h : st.role g rid = some r) : r.ID = rid := by
  unfold State.role at h
  cases hg : st.guilds.find? (fun g' => decide (g'.ID = g)) with
  | none => rw [hg] at h; simp at h
  | some gd =>
    rw [hg] at h
    change gd.Roles.find? (fun r2 => decide (r2.ID = rid)) = some r at h
    have hr := List.find?_some h
    simp only [decide_eq_true_eq] at hr
    exact hr

theorem chanTok_extract (id : List Char) : ((chanTok id).drop 2).dropLast = id := by
  simp [chanTok]

theorem chanResolve_chanTok (st : State) (id : List Char) :
    chanResolve st (chanTok id) =
      match st.channel id with
      | none => chanTok id
      | some channel =>
        if channel.ctype = ChannelTypeGuildVoice then chanTok id
        else '#' :: channel.Name := by
  unfold chanResolve
  rw [chanTok_extract]

/-! ## Spec-side definitions

These follow the wording of the spec's resolution passes, for refinement
comparison with the source embedding above. -/

/-- Follows the spec wording of the user pass: if the member lookup
succeeds and the nickname is non-empty, substitute `<@ID>` with
`@Username` and `<@!ID>` with `@Nickname`; if the lookup fails or the
nickname is empty, both forms substitute `@Username`. -/
def userStepSpec (st : State) (guildID : List Char) (content : List Char) (user : User) :
    List Char :=
  match st.member guildID user.ID with
  | some mem =>
    if mem.Nick ≠ [] then
      replacer2 (utok user.ID) ('@' :: user.Username)
        (utokBang user.ID) ('@' :: mem.Nick) content
    else
      replacer2 (utok user.ID) ('@' :: user.Username)
        (utokBang user.ID) ('@' :: user.Username) content
  | none =>
    replacer2 (utok user.ID) ('@' :: user.Username)
      (utokBang user.ID) ('@' :: user.Username) content

/-- The user pass as worded by the spec. -/
def userPassSpec (st : State) (guildID : List Char) (mentions : List User)
    (content : List Char) : List Char :=
  mentions.foldl (userStepSpec st guildID) content

/-- Follows the spec wording of the role pass: skip (leave the token
unresolved) if the lookup fails or the role is not mentionable,
otherwise replace every occurrence of `<@&roleID>` — the ID drawn from
`MentionRoles` — with `@RoleName`. -/
def roleStepSpec (st : State) (guildID : List Char) (content : List Char)
    (roleID : List Char) : List Char :=
  match st.role guildID roleID with
  | none => content
  | some role =>
    if role.Mentionable then stringsReplace content (rtok roleID) ('@' :: role.Name)
    else content

/-- The role pass as worded by the spec. -/
def rolePassSpec (st : State) (guildID : List Char) (roleIDs : List (List Char))
    (content : List Char) : List Char :=
  roleIDs.foldl (roleStepSpec st guildID)  content

/-- Follows the spec wording of the channel pass, per matched token with
extracted ID `id`: skip (leave the token verbatim) if the lookup fails
or the channel is voice-typed, otherwise replace with `#ChannelName`. -/
def chanResolveSpec (st : State) (id : List Char) : List Char :=
  match st.channel id with
  | none => chanTok id
  | some channel =>
    if channel.ctype = ChannelTypeGuildVoice then chanTok id
    else '#' :: channel.Name

/-- The channel pass as worded by the spec: resolve each `<#...>` match
through `chanResolveSpec` on the ID extracted from between the
brackets. -/
def channelPassSpec (st : State) (content : List Char) : List Char :=
  replaceAllChannelTokens (fun mention => chanResolveSpec st ((mention.drop 2).dropLast)) content

/-! ## Refinement lemmas: the source passes agree with the spec-side ones -/

theorem userStep_eq_spec (st : State) (g c : List Char) (u : User) :
    userStep st g c u = userStepSpec st g c u := by
  unfold userStep userStepSpec
  cases st.member g u.ID with
  | none => rfl
  | some mem =>
    by_cases hn : mem.Nick = []
    · simp [hn]
    · simp [hn]

theorem userPass_eq_spec (st : State) (g : List Char) (ms : List User) (c : List Char) :
    userPass st g ms c = userPassSpec st g ms c :=
  foldl_congr_mem _ _ ms c (fun a b _ => userStep_eq_spec st g a b)

theorem roleStep_eq_spec (st : State) (g c rid : List Char) :
    roleStep st g c rid = roleStepSpec st g c rid := by
  unfold roleStep roleStepSpec
  cases hr : st.role g rid with
  | none => rfl
  | some role =>
    show (if role.Mentionable = true then stringsReplace c (rtok role.ID) ('@' :: role.Name)
        else c)
      = (if role.Mentionable = true then stringsReplace c (rtok rid) ('@' :: role.Name)
        else c)
    rw [state_role_id st g rid role hr]

theorem rolePass_eq_spec (st : State) (g : List Char) (rids : List (List Char)) (c : List Char) :
    rolePass st g rids c = rolePassSpec st g rids c :=
  foldl_congr_mem _ _ rids c (fun a b _ => roleStep_eq_spec st g a b)

theorem channelPass_eq_spec (st : State) (content : List Char) :
    channelPass st content = channelPassSpec st content := by
  unfold channelPass channelPassSpec
  apply replaceAllChannelTokens_congr
  intro b hb
  show chanResolve st (chanTok b) = chanResolveSpec st (((chanTok b).drop 2).dropLast)
  rw [chanTok_extract, chanResolve_chanTok]
  rfl

/-! ## Branch lemmas for `ContentWithMoreMentionsReplaced` -/

theorem cwmmr_disabled (m : Message) (s : Session) (h : s.StateEnabled = false) :
    m.ContentWithMoreMentionsReplaced s = (m.ContentWithMentionsReplaced, none) := by
  unfold Message.ContentWithMoreMentionsReplaced
  rw [h]
  rfl

theorem cwmmr_miss (m : Message) (s : Session) (hen : s.StateEnabled = true)
    (hch : s.State.channel m.ChannelID = none) :
    m.ContentWithMoreMentionsReplaced s
      = (m.ContentWithMentionsReplaced, some StateError.notFound) := by
  unfold Message.ContentWithMoreMentionsReplaced
  rw [hen]
  show (match s.State.channel m.ChannelID with
    | none => (m.ContentWithMentionsReplaced, some StateError.notFound)
    | some channel =>
      (channelPass s.State
        (rolePass s.State channel.GuildID m.MentionRoles
          (userPass s.State channel.GuildID m.Mentions m.Content)), none))
    = (m.ContentWithMentionsReplaced, some StateError.notFound)
  rw [hch]

theorem cwmmr_enabled (m : Message) (s : Session) (channel : Channel)
    (hen : s.StateEnabled = true) (hch : s.State.channel m.ChannelID = some channel) :
    m.ContentWithMoreMentionsReplaced s
      = (channelPass s.State
          (rolePass s.State channel.GuildID m.MentionRoles
            (userPass s.State channel.GuildID m.Mentions m.Content)), none) := by
  unfold Message.ContentWithMoreMentionsReplaced
  rw [hen]
  show (match s.State.channel m.ChannelID with
    | none => (m.ContentWithMentionsReplaced, some StateError.notFound)
    | some channel =>
      (channelPass s.State
        (rolePass s.State channel.GuildID m.MentionRoles
          (userPass s.State channel.GuildID m.Mentions m.Content)), none))
    = _
  rw [hch]

/-! ## Concrete fixtures used by counterexamples and witnesses -/

/-- A message mentioning user 42 whose channel `9` may or may not be
cached, depending on the session it is resolved against. -/
def mMiss : Message :=
  { ID := [], ChannelID := ['9'], GuildID := [],
    Content := "hi <@42>".toList,
    Mentions := [{ ID := "42".toList, Username := "alice".toList }],
    MentionRoles := [] }

/-- An enabled session over an empty cache: every lookup fails. -/
def sEmpty : Session :=
  { StateEnabled := true, State := { channels := [], members := [], guilds := [] } }

/-- The guild channel `9` of guild `g`, a text channel. -/
def chMain : Channel :=
  { ID := ['9'], Name := "main".toList, GuildID := ['g'], ctype := 0 }

/-- A cache holding the message channel `9` and a text channel `5`. -/
def stC2 : State :=
  { channels := [chMain, { ID := ['5'], Name := ['x'], GuildID := ['g'], ctype := 0 }],
    members := [], guilds := [] }

/-! ## The claims -/

/-- Claim C1, corrected.  With the state enabled and the guild-channel
lookup for `message.ChannelID` failing, `ContentWithMoreMentionsReplaced`
returns exactly the `ContentWithMentionsReplaced` string — but paired
with the lookup's non-nil not-found error, not with a nil error:
`channel, err := s.State.Channel(m.ChannelID)` redeclares the named
return `err` (only `channel` is a new variable there), so the bare
`return` in the failure branch surfaces the lookup error. -/
theorem cwmmr_channel_miss_basic_with_error (m : Message) (s : Session)
    (hen : s.StateEnabled = true) (hch : s.State.channel m.ChannelID = none) :
    m.ContentWithMoreMentionsReplaced s
      = (m.ContentWithMentionsReplaced, some StateError.notFound) :=
  cwmmr_miss m s hen hch

/-- Claim C1, counterexample to the claim as stated: at a concrete
message and enabled session with an empty cache, the channel lookup
fails and the returned error is not nil (while the content is the basic
replacement), refuting "reports no error". -/
theorem cwmmr_channel_miss_error_not_nil :
    (mMiss.ContentWithMoreMentionsReplaced sEmpty).2 ≠ none ∧
    (mMiss.ContentWithMoreMentionsReplaced sEmpty).1 = mMiss.ContentWithMentionsReplaced := by
  decide

/-- Claim C1, witness: the corrected statement applied at the concrete
message and session above. -/
theorem cwmmr_channel_miss_basic_with_error_witness :
    mMiss.ContentWithMoreMentionsReplaced sEmpty
      = (mMiss.ContentWithMentionsReplaced, some StateError.notFound) :=
  cwmmr_channel_miss_basic_with_error mMiss sEmpty rfl (by decide)

/-- Claim C2, corrected.  With empty `Mentions` and `MentionRoles`,
`ContentWithMentionsReplaced` always returns `Content` unchanged, and
`ContentWithMoreMentionsReplaced` returns it unchanged provided
`Content` contains no `<#...>` channel-token match — the channel pass
runs regardless of the mention sets, so token-bearing content may still
be rewritten (see the counterexample). -/
theorem empty_mentions_content_unchanged (m : Message) (s : Session)
    (hm : m.Mentions = []) (hr : m.MentionRoles = []) :
    m.ContentWithMentionsReplaced = m.Content ∧
    (hasChannelToken m.Content = false →
      (m.ContentWithMoreMentionsReplaced s).1 = m.Content) := by
  have hbasic : m.ContentWithMentionsReplaced = m.Content := by
    unfold Message.ContentWithMentionsReplaced
    rw [hm]
    rfl
  refine ⟨hbasic, ?_⟩
  intro hc
  cases hsE : s.StateEnabled with
  | false => rw [cwmmr_disabled m s hsE, hbasic]
  | true =>
    cases hch : s.State.channel m.ChannelID with
    | none => rw [cwmmr_miss m s hsE hch]; exact hbasic
    | some channel =>
      rw [cwmmr_enabled m s channel hsE hch]
      show channelPass s.State
        (rolePass s.State channel.GuildID m.MentionRoles
          (userPass s.State channel.GuildID m.Mentions m.Content)) = m.Content
      rw [hm, hr]
      show channelPass s.State m.Content = m.Content
      exact replaceAllChannelTokens_noToken _ _ hc

/-- Claim C2, counterexample to the claim as stated: a message with
empty `Mentions` and `MentionRoles` whose content nonetheless changes
under `ContentWithMoreMentionsReplaced`, because the channel pass
rewrites the `<#5>` token. -/
theorem empty_mentions_enhanced_changes_content :
    (Message.ContentWithMoreMentionsReplaced
        { ID := [], ChannelID := ['9'], GuildID := [],
          Content := "<#5>".toList, Mentions := [], MentionRoles := [] }
        { StateEnabled := true, State := stC2 }).1
      ≠ "<#5>".toList := by decide

/-- Claim C2, witness: the corrected statement applied at a concrete
token-free message resolved against the enabled session over `stC2`. -/
theorem empty_mentions_content_unchanged_witness :
    Message.ContentWithMentionsReplaced
        { ID := [], ChannelID := ['9'], GuildID := [],
          Content := "hello".toList, Mentions := [], MentionRoles := [] }
      = "hello".toList ∧
    (Message.ContentWithMoreMentionsReplaced
        { ID := [], ChannelID := ['9'], GuildID := [],
          Content := "hello".toList, Mentions := [], MentionRoles := [] }
        { StateEnabled := true, State := stC2 }).1
      = "hello".toList :=
  ⟨(empty_mentions_content_unchanged
      { ID := [], ChannelID := ['9'], GuildID := [],
        Content := "hello".toList, Mentions := [], MentionRoles := [] }
      { StateEnabled := true, State := stC2 } rfl rfl).1,
   (empty_mentions_content_unchanged
      { ID := [], ChannelID := ['9'], GuildID := [],
        Content := "hello".toList, Mentions := [], MentionRoles := [] }
      { StateEnabled := true, State := stC2 } rfl rfl).2 (by decide)⟩

/-- Claim C3, confirmed.  With the cache subsystem disabled,
`ContentWithMoreMentionsReplaced` returns exactly the
`ContentWithMentionsReplaced` string with a nil error, and the result
does not depend on the cache at all — replacing the state by any `st2`
gives the same result, so no channel, member or role lookup influences
the output. -/
theorem disabled_equals_basic_no_lookups (m : Message) (s : Session) (st2 : State)
    (h : s.StateEnabled = false) :
    m.ContentWithMoreMentionsReplaced s = (m.ContentWithMentionsReplaced, none) ∧
    m.ContentWithMoreMentionsReplaced { StateEnabled := s.StateEnabled, State := st2 }
      = m.ContentWithMoreMentionsReplaced s := by
  have h1 := cwmmr_disabled m s h
  have h2 := cwmmr_disabled m { StateEnabled := s.StateEnabled, State := st2 } h
  exact ⟨h1, by rw [h2, h1]⟩

/-- Claim C3, witness: the statement applied at a concrete message and a
disabled session, with a populated replacement cache `stC2`. -/
theorem disabled_equals_basic_no_lookups_witness :
    mMiss.ContentWithMoreMentionsReplaced
        { StateEnabled := false, State := sEmpty.State }
      = (mMiss.ContentWithMentionsReplaced, none) ∧
    mMiss.ContentWithMoreMentionsReplaced
        { StateEnabled := ({ StateEnabled := false, State := sEmpty.State } : Session).StateEnabled,
          State := stC2 }
      = mMiss.ContentWithMoreMentionsReplaced
          { StateEnabled := false, State := sEmpty.State } :=
  disabled_equals_basic_no_lookups mMiss
    { StateEnabled := false, State := sEmpty.State } stC2 rfl

/-- Claim C4, confirmed.  With the state enabled and the message channel
resolved, `ContentWithMoreMentionsReplaced` computes exactly the
pipeline whose user pass is the spec-worded one: per mentioned user,
when the member lookup succeeds with a non-empty nick, `<@ID>` is
replaced by `@Username` and `<@!ID>` by `@Nick`; when the lookup fails
or the nick is empty, both token forms are replaced by `@Username`. -/
theorem user_pass_follows_spec (m : Message) (s : Session) (channel : Channel)
    (hen : s.StateEnabled = true) (hch : s.State.channel m.ChannelID = some channel) :
    m.ContentWithMoreMentionsReplaced s
      = (channelPass s.State
          (rolePass s.State channel.GuildID m.MentionRoles
            (userPassSpec s.State channel.GuildID m.Mentions m.Content)), none) := by
  rw [cwmmr_enabled m s channel hen hch, userPass_eq_spec]

/-- A cache in which member 42 of guild `g` carries the nick `Al`. -/
def stNick : State :=
  { channels := [chMain],
    members := [(['g'], "42".toList, { Nick := "Al".toList })],
    guilds := [] }

/-- A message mentioning user 42 through both token forms. -/
def mHi : Message :=
  { ID := [], ChannelID := ['9'], GuildID := ['g'],
    Content := "hi <@42> and <@!42>".toList,
    Mentions := [{ ID := "42".toList, Username := "alice".toList }],
    MentionRoles := [] }

/-- Claim C4, witness: the statement applied with a resolved member
whose nick is `Al`; the bare form keeps the username and the
exclamation form takes the nickname, reproducing the spec's
`"hi @alice and @Al"` example. -/
theorem user_pass_follows_spec_witness :
    mHi.ContentWithMoreMentionsReplaced { StateEnabled := true, State := stNick }
      = (channelPass stNick
          (rolePass stNick chMain.GuildID mHi.MentionRoles
            (userPassSpec stNick chMain.GuildID mHi.Mentions mHi.Content)), none) ∧
    mHi.ContentWithMoreMentionsReplaced { StateEnabled := true, State := stNick }
      = ("hi @alice and @Al".toList, none) :=
  ⟨user_pass_follows_spec mHi { StateEnabled := true, State := stNick } chMain rfl (by decide),
   by decide⟩

/-- Claim C5, confirmed.  With the state enabled and the message channel
resolved, `ContentWithMoreMentionsReplaced` computes exactly the
pipeline whose role pass is the spec-worded one: per role ID of
`MentionRoles`, the `<@&ID>` token is left untouched when the role
lookup fails or the role is not mentionable, and otherwise every
occurrence of `<@&ID>` is replaced by `@RoleName`; the error component
is nil, so per-role lookup failures never surface an error. -/
theorem role_pass_follows_spec (m : Message) (s : Session) (channel : Channel)
    (hen : s.StateEnabled = true) (hch : s.State.channel m.ChannelID = some channel) :
    m.ContentWithMoreMentionsReplaced s
      = (channelPass s.State
          (rolePassSpec s.State channel.GuildID m.MentionRoles
            (userPass s.State channel.GuildID m.Mentions m.Content)), none) := by
  rw [cwmmr_enabled m s channel hen hch, rolePass_eq_spec]

/-- A cache for guild `g` with a non-mentionable role 2 (`mods`) and a
mentionable role 3 (`devs`); role 1 is absent. -/
def stRoles : State :=
  { channels := [chMain], members := [],
    guilds := [{ ID := ['g'],
                 Roles := [{ ID := ['2'], Name := "mods".toList, Mentionable := false },
                           { ID := ['3'], Name := "devs".toList, Mentionable := true }] }] }

/-- A message mentioning roles 1 (unresolvable), 2 (not mentionable) and
3 (mentionable). -/
def mRoles : Message :=
  { ID := [], ChannelID := ['9'], GuildID := ['g'],
    Content := "a <@&1> <@&2> <@&3>".toList,
    Mentions := [], MentionRoles := [['1'], ['2'], ['3']] }

/-- Claim C5, witness: the statement applied where role 1 misses the
cache and role 2 is not mentionable — both tokens stay verbatim — while
the mentionable role 3 becomes `@devs`; the error is nil throughout. -/
theorem role_pass_follows_spec_witness :
    mRoles.ContentWithMoreMentionsReplaced { StateEnabled := true, State := stRoles }
      = (channelPass stRoles
          (rolePassSpec stRoles chMain.GuildID mRoles.MentionRoles
            (userPass stRoles chMain.GuildID mRoles.Mentions mRoles.Content)), none) ∧
    mRoles.ContentWithMoreMentionsReplaced { StateEnabled := true, State := stRoles }
      = ("a <@&1> <@&2> @devs".toList, none) :=
  ⟨role_pass_follows_spec mRoles { StateEnabled := true, State := stRoles } chMain rfl (by decide),
   by decide⟩

/-- Claim C6, confirmed.  The channel pass equals the spec-worded pass
on every content (each `<#...>` match is resolved by looking up the
extracted ID: verbatim on a miss or a guild-voice channel, `#Name`
otherwise), and on a single channel token `<#id>` it returns exactly
that per-token resolution. -/
theorem channel_pass_follows_spec (st : State) (content id : List Char)
    (hid : '>' ∉ id) :
    channelPass st content = channelPassSpec st content ∧
    channelPass st (chanTok id) = chanResolveSpec st id := by
  refine ⟨channelPass_eq_spec st content, ?_⟩
  have hz : replaceAllChannelTokens (chanResolve st) ([] : List Char) = [] := rfl
  have h := replaceAllChannelTokens_append (chanResolve st) [] id [] rfl hid
  simp only [List.nil_append, hz, List.append_nil] at h
  show replaceAllChannelTokens (chanResolve st) (chanTok id) = chanResolveSpec st id
  rw [h, chanResolve_chanTok]
  rfl

/-- A cache with a text channel 7 named `general` and a guild-voice
channel 8 named `vc`; channel 5 is absent. -/
def stChans : State :=
  { channels := [{ ID := ['7'], Name := "general".toList, GuildID := ['g'], ctype := 0 },
                 { ID := ['8'], Name := "vc".toList, GuildID := ['g'], ctype := 2 }],
    members := [], guilds := [] }

/-- Claim C6, witness: the statement applied over `stChans`, plus the
evaluated outcomes — the text channel token `<#7>` becomes `#general`,
the voice channel token `<#8>` stays verbatim, and the unresolvable
token `<#5>` stays verbatim. -/
theorem channel_pass_follows_spec_witness :
    (channelPass stChans "hi <#7> and <#8>".toList
        = channelPassSpec stChans "hi <#7> and <#8>".toList ∧
      channelPass stChans (chanTok ['5']) = chanResolveSpec stChans ['5']) ∧
    channelPass stChans "hi <#7> and <#8>".toList = "hi #general and <#8>".toList ∧
    channelPass stChans (chanTok ['5']) = chanTok ['5'] :=
  ⟨channel_pass_follows_spec stChans "hi <#7> and <#8>".toList ['5'] (by decide),
   by decide, by decide⟩

/-- A message whose second mentioned user's username is the first user's
ID, so that the first replacement pass manufactures a fresh `<@1>`
token out of the surrounding text. -/
def mLoop : Message :=
  { ID := [], ChannelID := [], GuildID := [],
    Content := "<<@7>>".toList,
    Mentions := [{ ID := ['1'], Username := ['a'] }, { ID := ['7'], Username := ['1'] }],
    MentionRoles := [] }

/-- Claim C7, counterexample to the claim as stated: one application of
the basic replacement to `<<@7>>` yields `<@1>`, and a second
application (same `Mentions`) yields `@a` — the replacement is not
idempotent for every message. -/
theorem basic_replacement_not_idempotent :
    Message.ContentWithMentionsReplaced
        { mLoop with Content := mLoop.ContentWithMentionsReplaced }
      ≠ mLoop.ContentWithMentionsReplaced := by decide

/-- Claim C7, corrected.  The basic replacement is idempotent on every
message whose first output contains no residual `<@ID>` or `<@!ID>`
token of a mentioned user — the situation the spec describes
("already-substituted `@Username` text contains no further `<@id>`
tokens to match"); without that proviso idempotence fails, since
substituted text can recreate a mentioned token (see the
counterexample). -/
theorem basic_idempotent_of_no_residual_tokens (m : Message)
    (h : ∀ u ∈ m.Mentions,
      ¬ (utok u.ID <:+: m.ContentWithMentionsReplaced) ∧
      ¬ (utokBang u.ID <:+: m.ContentWithMentionsReplaced)) :
    Message.ContentWithMentionsReplaced
        { m with Content := m.ContentWithMentionsReplaced }
      = m.ContentWithMentionsReplaced := by
  show m.Mentions.foldl userBasicStep m.ContentWithMentionsReplaced
    = m.ContentWithMentionsReplaced
  apply foldl_fixed
  intro u hu
  obtain ⟨h1, h2⟩ := h u hu
  exact replacer2_eq_self _ _ _ _ _ h1 h2

/-- Claim C7, witness: the corrected statement applied to the spec's own
example message, whose output `hi @alice and @alice` holds no further
tokens of user 42. -/
theorem basic_idempotent_of_no_residual_tokens_witness :
    Message.ContentWithMentionsReplaced
        { mHi with Content := mHi.ContentWithMentionsReplaced }
      = mHi.ContentWithMentionsReplaced :=
  basic_idempotent_of_no_residual_tokens mHi (by decide)

/-- Claim C8, confirmed.  For content `hi <@42> and <@!42>` with the
single mention `{ID := 42, Username := alice}`, the basic replacement
substitutes both surface forms with `@Username`, yielding
`hi @alice and @alice`. -/
theorem basic_replaces_both_forms :
    mHi.ContentWithMentionsReplaced = "hi @alice and @alice".toList := by decide

/-- Claim C9, confirmed.  `Reference` is a pure projection: the returned
`MessageReference` carries exactly the message's `GuildID`, `ChannelID`
and `ID`, with no lookup, no validation, and no dependence on any
external state. -/
theorem reference_is_projection (m : Message) :
    m.Reference
      = { GuildID := m.GuildID, ChannelID := m.ChannelID, MessageID := m.ID } := rfl

/-- Claim C10, confirmed.  The channel-token pattern matches `<#` plus
any run of characters other than `'>'` (empty, non-decimal and
whitespace-bearing IDs included) up to the next `'>'`: in any content
`pre ++ <#id> ++ suf` (with no `<#` in `pre` so the shown token is the
leftmost match, and no `'>'` in `id`), the pass rewrites exactly that
token through the match function and continues on `suf`; the second
conjunct shows the text strictly between `<#` and `>` is handed verbatim
to the channel lookup, and a miss leaves the token unchanged. -/
theorem channel_pattern_matches_and_extracts (st : State) (pre id suf : List Char)
    (hpre : hasLtHash pre = false) (hid : '>' ∉ id) :
    channelPass st (pre ++ chanTok id ++ suf)
      = pre ++ chanResolve st (chanTok id) ++ channelPass st suf ∧
    chanResolve st (chanTok id)
      = (match st.channel id with
        | none => chanTok id
        | some channel =>
          if channel.ctype = ChannelTypeGuildVoice then chanTok id
          else '#' :: channel.Name) := by
  constructor
  · show replaceAllChannelTokens (chanResolve st) (pre ++ chanTok id ++ suf)
      = pre ++ chanResolve st (chanTok id) ++ replaceAllChannelTokens (chanResolve st) suf
    exact replaceAllChannelTokens_append (chanResolve st) pre id suf hpre hid
  · exact chanResolve_chanTok st id

/-- Claim C10, witness: the statement applied to the malformed,
whitespace-bearing, non-decimal ID ` a b!` in context, plus the
evaluated outcomes — both `<# a b!>` and the empty-ID token `<#>` miss
the cache and are left verbatim. -/
theorem channel_pattern_matches_and_extracts_witness :
    (channelPass stChans ("x ".toList ++ chanTok " a b!".toList ++ " y".toList)
        = "x ".toList ++ chanResolve stChans (chanTok " a b!".toList)
            ++ channelPass stChans " y".toList ∧
      chanResolve stChans (chanTok " a b!".toList)
        = (match stChans.channel " a b!".toList with
          | none => chanTok " a b!".toList
          | some channel =>
            if channel.ctype = ChannelTypeGuildVoice then chanTok " a b!".toList
            else '#' :: channel.Name)) ∧
    channelPass stChans "x <# a b!> y".toList = "x <# a b!> y".toList ∧
    channelPass stChans "<#>".toList = "<#>".toList :=
  ⟨channel_pattern_matches_and_extracts stChans "x ".toList " a b!".toList " y".toList
      (by decide) (by decide),
   by decide, by decide⟩
